import Mathlib

/-!
Shallow embedding of the `Ext.direct.Manager` singleton
(`src/touch/src/direct/Manager.js`) and of the deprecated `Ext.EventManager`
shim (`src/unnamed/part_000`).

Providers and transactions are external objects; the Manager only observes
their identifiers and, for providers, their connection flag.  Calls the
Manager makes out into a provider (`connect`, `on` for the data event, `un`
for the data event) are recorded in an explicit effect trace.  The two keyed
registries the Manager builds with `Ext.util.Collection` are modelled as
lists with key-unique insertion; `Ext.util.Collection` itself is framework
code that is not under `src/`, so its operations are modelled from the
specification.
-/

namespace ExtDirect

/-- A provider instance as the Manager sees it: its `getId()` value and the
`isConnected()` flag at the moment it is handed to the Manager. -/
structure Provider where
  id : String
  connected : Bool
deriving DecidableEq, Repr

/-- `provider.getId()`. -/
def Provider.getId (p : Provider) : String := p.id

/-- `provider.isConnected()`. -/
def Provider.isConnected (p : Provider) : Bool := p.connected

/-- A provider config object (one without `isProvider`), as passed to
`addProvider`; `Ext.create` turns it into a provider instance. -/
structure PConfig where
  ptype : String
  url : String
deriving DecidableEq, Repr

/-- An argument to `addProvider`: either an already instantiated provider
(`isProvider` true) or a config object. -/
inductive ProviderArg where
  | inst : Provider → ProviderArg
  | config : PConfig → ProviderArg
deriving DecidableEq, Repr

/-- A transaction as the Manager sees it: its `getId()` value. -/
structure Transaction where
  tid : String
deriving DecidableEq, Repr

/-- `transaction.getId()`. -/
def Transaction.getId (t : Transaction) : String := t.tid

/-- Modelled from the spec: `Ext.util.Collection` (required by the Manager
but not under `src/`) is a keyed registry, keyed by the function the Manager
passes at construction (`getKey`, which returns `item.getId()`).  `get` looks
an item up by key. -/
def collGet {α : Type} (key : α → String) (xs : List α) (k : String) : Option α :=
  xs.find? (fun x => key x == k)

/-- Modelled from the spec: `Collection.add` registers an item under its key;
keys are unique, so any entry already stored under that key is replaced. -/
def collAdd {α : Type} (key : α → String) (xs : List α) (x : α) : List α :=
  (xs.filter fun y => key y != key x) ++ [x]

/-- Modelled from the spec: `Collection.remove` drops the entry stored under
the given item's key (a no-op when no such entry exists). -/
def collRemove {α : Type} (key : α → String) (xs : List α) (x : α) : List α :=
  xs.filter fun y => key y != key x

/-- The Manager state built by the constructor: the `providers` and
`transactions` collections, both keyed by `getKey` = `item.getId()`. -/
structure ManagerState where
  providers : List Provider
  transactions : List Transaction
deriving DecidableEq, Repr

/-- The state after `constructor`: both collections empty. -/
def ManagerState.init : ManagerState := ⟨[], []⟩

/-- A call the Manager makes out into a provider object, recorded by id:
`provider.connect()`, `provider.on` for the data event with the Manager's
`onProviderData` handler, and the matching `provider.un`. -/
inductive Effect where
  | connectP : String → Effect
  | onData : String → Effect
  | unData : String → Effect
deriving DecidableEq, Repr

/-- The instantiation step at the top of `addProvider`: an argument without
`isProvider` is turned into a provider by `Ext.create`; `mk` stands for that
framework construction. -/
def instantiateWith (mk : PConfig → Provider) : ProviderArg → Provider
  | .inst p => p
  | .config c => mk c

/-- The single-argument path of `addProvider`: instantiate if needed, add to
the providers collection, subscribe to the data event, auto-connect when not
connected, and return the provider. -/
def addProvider1 (mk : PConfig → Provider) (s : ManagerState) (a : ProviderArg) :
    ManagerState × List Effect × Provider :=
  let p := instantiateWith mk a
  let s1 : ManagerState := { s with providers := collAdd Provider.getId s.providers p }
  let effs := [Effect.onData p.id] ++ (if p.isConnected then [] else [Effect.connectP p.id])
  (s1, effs, p)

/-- The loop `addProvider` runs when called with more than one argument: one
single-argument call per argument, in order, accumulating the effect trace. -/
def addProviderLoop (mk : PConfig → Provider) :
    ManagerState → List Effect → List ProviderArg → ManagerState × List Effect
  | s, acc, [] => (s, acc)
  | s, acc, a :: rest =>
    let r := addProvider1 mk s a
    addProviderLoop mk r.1 (acc ++ r.2.1) rest

/-- `Manager.addProvider(...)` over its full (variadic) argument list.  With
more than one argument it recurses once per argument and returns `undefined`
(`none` here); with exactly one argument it runs the single-argument path and
returns the provider; with no argument the source dereferences `undefined`
and throws, modelled as `none` overall. -/
def addProvider (mk : PConfig → Provider) (s : ManagerState) (args : List ProviderArg) :
    Option (ManagerState × List Effect × Option Provider) :=
  if 1 < args.length then
    let r := addProviderLoop mk s [] args
    some (r.1, r.2, none)
  else
    match args with
    | [a] =>
      let r := addProvider1 mk s a
      some (r.1, r.2.1, some r.2.2)
    | _ => none

/-- An argument to `removeProvider` or `getProvider`: a provider instance
(`isProvider` true) or an id string. -/
inductive ProviderRef where
  | byId : String → ProviderRef
  | byInst : Provider → ProviderRef
deriving DecidableEq, Repr

/-- `Manager.removeProvider`: resolve the argument (an instance is taken as
is, an id is looked up); when a provider results, unsubscribe its data event,
remove it from the collection and return it; otherwise return null. -/
def removeProvider (s : ManagerState) (a : ProviderRef) :
    ManagerState × List Effect × Option Provider :=
  let p? := match a with
    | .byInst p => some p
    | .byId i => collGet Provider.getId s.providers i
  match p? with
  | some p =>
    ({ s with providers := collRemove Provider.getId s.providers p },
     [Effect.unData p.id], some p)
  | none => (s, [], none)

/-- An argument to `getTransaction` or `removeTransaction`: a transaction
object or an id string. -/
inductive TransactionRef where
  | obj : Transaction → TransactionRef
  | byId : String → TransactionRef
deriving DecidableEq, Repr

/-- `Manager.getTransaction`: an object argument is returned as is, an id is
looked up in the transactions collection. -/
def getTransaction (s : ManagerState) : TransactionRef → Option Transaction
  | .obj t => some t
  | .byId i => collGet Transaction.getId s.transactions i

/-- `Manager.addTransaction`: add to the transactions collection and return
the transaction. -/
def addTransaction (s : ManagerState) (t : Transaction) : ManagerState × Transaction :=
  ({ s with transactions := collAdd Transaction.getId s.transactions t }, t)

/-- `Manager.removeTransaction`: resolve via `getTransaction`, remove the
result from the collection and return it.  When the lookup finds nothing the
source passes `undefined` to `Collection.remove`; that path is modelled as a
no-op returning nothing. -/
def removeTransaction (s : ManagerState) (a : TransactionRef) :
    ManagerState × Option Transaction :=
  match getTransaction s a with
  | some t =>
    ({ s with transactions := collRemove Transaction.getId s.transactions t }, some t)
  | none => (s, none)

/-- A server event as `onProviderData` sees it: `getName()` (with the empty
string standing for a falsy name) and `getStatus()` (`none` standing for an
absent status, `=== false` only matching `some false`). -/
structure DirectEvent where
  name : String
  status : Option Bool
deriving DecidableEq, Repr

/-- `event.getName()`. -/
def DirectEvent.getName (e : DirectEvent) : String := e.name

/-- `event.getStatus()`. -/
def DirectEvent.getStatus (e : DirectEvent) : Option Bool := e.status

/-- One `fireEvent` call made by `onProviderData`: the event name fired, the
direct event passed, and the provider argument when one is passed (only the
final fire of the event named event passes the provider). -/
inductive Fired where
  | fire : String → DirectEvent → Option Provider → Fired
deriving DecidableEq, Repr

/-- The non-array body of `onProviderData`: fire the event under its own name
when that name is truthy and is neither event nor exception; otherwise fire
exception when the status is strictly false; in every case fire the event
named event with the event and the provider. -/
def processEvent (p : Provider) (e : DirectEvent) : List Fired :=
  let n := e.getName
  (if n != "" && n != "event" && n != "exception" then [Fired.fire n e none]
   else if e.getStatus == some false then [Fired.fire "exception" e none]
   else [])
  ++ [Fired.fire "event" e (some p)]

/-- The event argument delivered to `onProviderData`: a single event or an
array, whose elements the source feeds back through `onProviderData` (so
nested arrays recurse). -/
inductive EventArg where
  | single : DirectEvent → EventArg
  | arr : List EventArg → EventArg

mutual

/-- `Manager.onProviderData`: an array argument is processed element by
element in order; a single event is processed by the non-array body. -/
def onProviderData (p : Provider) : EventArg → List Fired
  | .single e => processEvent p e
  | .arr es => onProviderDataList p es

/-- The loop `onProviderData` runs over an array argument. -/
def onProviderDataList (p : Provider) : List EventArg → List Fired
  | [] => []
  | a :: rest => onProviderData p a ++ onProviderDataList p rest

end

/-- A JavaScript value as far as `parseMethod` can observe one: the path walk
only indexes values by property name and tests truthiness and
function-hood.  Functions are identified by a tag; objects are property
maps. -/
inductive JSValue where
  | undefV : JSValue
  | jsNull : JSValue
  | boolV : Bool → JSValue
  | numV : Int → JSValue
  | strV : String → JSValue
  | fnV : String → JSValue
  | objV : List (String × JSValue) → JSValue

/-- JavaScript truthiness of a value, as tested by the loop guard in
`parseMethod`. -/
def truthy : JSValue → Bool
  | .undefV => false
  | .jsNull => false
  | .boolV b => b
  | .numV n => n != 0
  | .strV s => s != ""
  | .fnV _ => true
  | .objV _ => true

/-- Property access `current[part]`.  Accessing a property of `undefined` or
`null` throws a TypeError (`none` here); on an object it yields the property
or `undefined`; on any other value it yields `undefined`. -/
def getMember : JSValue → String → Option JSValue
  | .undefV, _ => none
  | .jsNull, _ => none
  | .objV fields, k => some ((((fields.find? fun f => f.1 == k)).map Prod.snd).getD .undefV)
  | .boolV _, _ => some .undefV
  | .numV _, _ => some .undefV
  | .strV _, _ => some .undefV
  | .fnV _, _ => some .undefV

/-- The while loop of `parseMethod`: starting from `current`, index by each
remaining path part as long as `current` is truthy; `none` means a property
access threw. -/
def walkRun : JSValue → List String → Option JSValue
  | cur, [] => some cur
  | cur, p :: rest =>
    if truthy cur then (getMember cur p).bind (fun c => walkRun c rest) else some cur

/-- `Ext.isFunction`. -/
def isFunction : JSValue → Bool
  | .fnV _ => true
  | _ => false

/-- The argument of `parseMethod`: a dotted-path string or a function. -/
inductive FnArg where
  | strA : String → FnArg
  | fnA : String → FnArg

/-- `Manager.parseMethod` run against a global `window` object `w`.  The
outer `Option` is the exception channel (`none` = a property access threw);
the inner `Option JSValue` is the returned value, `none` standing for
null. -/
def parseMethod (w : JSValue) : FnArg → Option (Option JSValue)
  | .strA s =>
    (walkRun w (s.splitOn ".")).map (fun v => if isFunction v then some v else none)
  | .fnA f => some (some (.fnV f))

/-- Key uniqueness of a registry: no two distinct entries share a key. -/
def uniqueKeys {α : Type} (key : α → String) (xs : List α) : Prop :=
  xs.Pairwise fun a b => key a ≠ key b

/-- The Manager states reachable from the constructor through the registry
operations. -/
inductive Reachable : ManagerState → Prop where
  | init : Reachable ManagerState.init
  | addP (mk : PConfig → Provider) (s : ManagerState) (a : ProviderArg) :
      Reachable s → Reachable (addProvider1 mk s a).1
  | remP (s : ManagerState) (a : ProviderRef) :
      Reachable s → Reachable (removeProvider s a).1
  | addT (s : ManagerState) (t : Transaction) :
      Reachable s → Reachable (addTransaction s t).1
  | remT (s : ManagerState) (a : TransactionRef) :
      Reachable s → Reachable (removeTransaction s a).1

/-- A sample provider instantiation used in concrete instances. -/
def mkEx : PConfig → Provider := fun c => ⟨c.ptype, true⟩

/-- A sample event whose name is neither falsy nor reserved but whose status
is strictly false. -/
def evFoo : DirectEvent := ⟨"foo", some false⟩

/-- A sample provider delivering events. -/
def provEx : Provider := ⟨"p1", true⟩

/-- A sample reachable state: the one reached by adding one provider to the
fresh Manager. -/
def sEx : ManagerState :=
  (addProvider1 mkEx ManagerState.init (ProviderArg.inst ⟨"p1", false⟩)).1

end ExtDirect

namespace ExtShim

/-!
Embedding of the deprecated `Ext.EventManager` shim (`src/unnamed/part_000`).
The element and viewport event systems the shim forwards onto are framework
code not under `src/`.
-/

/-- One registered handler of an element event: event name, handler function
(identified by a tag), scope and options. -/
structure Listener where
  ev : String
  fn : String
  scope : Option String
  opts : Option String
deriving DecidableEq, Repr

/-- An event target (an element, or the viewport): its registered
listeners. -/
structure El where
  listeners : List Listener
deriving DecidableEq, Repr

/-- Modelled from the spec: `element.on` of the toolkit's own element event
system (not under `src/`) registers the handler on the element. -/
def El.on (el : El) (ev fn : String) (scope opts : Option String) : El :=
  { listeners := el.listeners ++ [⟨ev, fn, scope, opts⟩] }

/-- Helper for `El.un`: drop the first listener matching event name, handler
and scope. -/
def dropFirstMatch (ev fn : String) (scope : Option String) : List Listener → List Listener
  | [] => []
  | l :: rest =>
    if l.ev == ev && l.fn == fn && l.scope == scope then rest
    else l :: dropFirstMatch ev fn scope rest

/-- Modelled from the spec: `element.un` of the toolkit's element event
system removes the previously registered handler. -/
def El.un (el : El) (ev fn : String) (scope : Option String) : El :=
  { listeners := dropFirstMatch ev fn scope el.listeners }

/-- `Ext.EventManager.addListener` (its debug deprecation log aside): it
calls `element.on(eventName, fn, scope, options)`. -/
def addListener (el : El) (ev fn : String) (scope opts : Option String) : El :=
  el.on ev fn scope opts

/-- `Ext.EventManager.removeListener` (its debug deprecation log aside): it
calls `element.un(eventName, fn, scope)`. -/
def removeListener (el : El) (ev fn : String) (scope : Option String) : El :=
  el.un ev fn scope

/-- `Ext.EventManager.onWindowResize` (its debug deprecation log aside): it
registers the handler for the resize event on `Ext.Viewport`. -/
def onWindowResize (viewport : El) (fn : String) (scope opts : Option String) : El :=
  viewport.on "resize" fn scope opts

end ExtShim

namespace ExtDirect

theorem collGet_collAdd_self {α : Type} (key : α → String) (xs : List α) (x : α) :
    collGet key (collAdd key xs x) (key x) = some x := by
  unfold collGet collAdd
  rw [List.find?_append]
  have h2 : (xs.filter fun y => key y != key x).find? (fun y => key y == key x) = none := by
    rw [List.find?_eq_none]
    intro y hy
    have := List.of_mem_filter hy
    simpa using this
  simp [h2]

theorem collGet_collRemove_self {α : Type} (key : α → String) (xs : List α) (x : α) :
    collGet key (collRemove key xs x) (key x) = none := by
  unfold collGet collRemove
  rw [List.find?_eq_none]
  intro y hy
  have := List.of_mem_filter hy
  simpa using this

theorem collRemove_eq_of_get_none {α : Type} {key : α → String} {xs : List α} {x : α}
    (h : collGet key xs (key x) = none) : collRemove key xs x = xs := by
  unfold collGet at h
  rw [List.find?_eq_none] at h
  unfold collRemove
  apply List.filter_eq_self.mpr
  intro y hy
  have := h y hy
  simpa using this

theorem uniqueKeys_collAdd {α : Type} (key : α → String) {xs : List α} (x : α)
    (h : uniqueKeys key xs) : uniqueKeys key (collAdd key xs x) := by
  unfold uniqueKeys collAdd
  rw [List.pairwise_append]
  refine ⟨List.Pairwise.sublist (List.filter_sublist xs) h, List.pairwise_singleton _ _, ?_⟩
  intro a ha b hb
  have hane := List.of_mem_filter ha
  rw [List.mem_singleton] at hb
  subst hb
  simpa using hane

theorem uniqueKeys_collRemove {α : Type} (key : α → String) {xs : List α} (x : α)
    (h : uniqueKeys key xs) : uniqueKeys key (collRemove key xs x) :=
  List.Pairwise.sublist (List.filter_sublist xs) h

theorem removeProvider_state (s : ManagerState) (a : ProviderRef) :
    (removeProvider s a).1.transactions = s.transactions ∧
    ((removeProvider s a).1.providers = s.providers ∨
      ∃ p, (removeProvider s a).1.providers = collRemove Provider.getId s.providers p) := by
  rcases a with i | p
  · cases hg : collGet Provider.getId s.providers i with
    | none => refine ⟨?_, Or.inl ?_⟩ <;> simp [removeProvider, hg]
    | some p => refine ⟨?_, Or.inr ⟨p, ?_⟩⟩ <;> simp [removeProvider, hg]
  · refine ⟨?_, Or.inr ⟨p, ?_⟩⟩ <;> simp [removeProvider]

theorem removeTransaction_state (s : ManagerState) (a : TransactionRef) :
    (removeTransaction s a).1.providers = s.providers ∧
    ((removeTransaction s a).1.transactions = s.transactions ∨
      ∃ t, (removeTransaction s a).1.transactions
        = collRemove Transaction.getId s.transactions t) := by
  unfold removeTransaction
  cases hg : getTransaction s a with
  | none => exact ⟨rfl, Or.inl rfl⟩
  | some t => exact ⟨rfl, Or.inr ⟨t, rfl⟩⟩

/-- Claim C1: every provider passed to a single-argument `addProvider` call
(after instantiation from a config if needed) is added to the providers
registry, subscribed to via its data event, and returned; `connect()` is
invoked exactly when the provider is not already connected. -/
theorem addProvider_single_spec (mk : PConfig → Provider) (s : ManagerState) (a : ProviderArg) :
    ∃ s1 effs,
      addProvider mk s [a] = some (s1, effs, some (instantiateWith mk a)) ∧
      collGet Provider.getId s1.providers (instantiateWith mk a).getId
        = some (instantiateWith mk a) ∧
      Effect.onData (instantiateWith mk a).getId ∈ effs ∧
      (Effect.connectP (instantiateWith mk a).getId ∈ effs ↔
        (instantiateWith mk a).isConnected = false) := by
  refine ⟨_, _, rfl, ?_, ?_, ?_⟩
  · exact collGet_collAdd_self Provider.getId s.providers (instantiateWith mk a)
  · simp [addProvider1, Provider.getId]
  · cases hc : (instantiateWith mk a).connected <;>
      simp [addProvider1, Provider.getId, Provider.isConnected, hc]

/-- Claim C3: `removeProvider` on an id string that identifies no registered
provider returns null, makes no call into any provider instance and leaves
the state unchanged. -/
theorem removeProvider_unknown_id (s : ManagerState) (i : String)
    (h : collGet Provider.getId s.providers i = none) :
    removeProvider s (.byId i) = (s, [], none) := by
  unfold removeProvider
  simp [h]

/-- Witness for claim C3 at a concrete input. -/
theorem removeProvider_unknown_id_witness :
    collGet Provider.getId ManagerState.init.providers "nope" = none ∧
    removeProvider ManagerState.init (.byId "nope") = (ManagerState.init, [], none) :=
  ⟨rfl, removeProvider_unknown_id ManagerState.init "nope" rfl⟩

/-- Claim C10: `removeProvider` on a provider instance that was never added
does not return null: it detaches the data listener, the removal of the
absent entry is a no-op, and the instance itself is returned. -/
theorem removeProvider_unregistered_instance (s : ManagerState) (p : Provider)
    (h : collGet Provider.getId s.providers p.getId = none) :
    removeProvider s (.byInst p) = (s, [Effect.unData p.getId], some p) := by
  unfold removeProvider
  have hr : collRemove Provider.getId s.providers p = s.providers :=
    collRemove_eq_of_get_none h
  simp [hr, Provider.getId]

/-- Witness for claim C10 at a concrete input. -/
theorem removeProvider_unregistered_instance_witness :
    collGet Provider.getId ManagerState.init.providers (Provider.getId ⟨"q", false⟩) = none ∧
    removeProvider ManagerState.init (.byInst ⟨"q", false⟩)
      = (ManagerState.init, [Effect.unData (Provider.getId ⟨"q", false⟩)], some ⟨"q", false⟩) :=
  ⟨rfl, removeProvider_unregistered_instance ManagerState.init ⟨"q", false⟩ rfl⟩

/-- Claim C7: transaction tracking round-trips: `addTransaction` returns the
transaction, after which `getTransaction` by its id finds it;
`removeTransaction` by that id returns it and afterwards `getTransaction` by
that id finds nothing. -/
theorem transaction_roundtrip (s : ManagerState) (t : Transaction) :
    (addTransaction s t).2 = t ∧
    getTransaction (addTransaction s t).1 (.byId t.getId) = some t ∧
    (removeTransaction (addTransaction s t).1 (.byId t.getId)).2 = some t ∧
    getTransaction (removeTransaction (addTransaction s t).1 (.byId t.getId)).1
      (.byId t.getId) = none := by
  have hget : collGet Transaction.getId (collAdd Transaction.getId s.transactions t) t.getId
      = some t := collGet_collAdd_self Transaction.getId s.transactions t
  refine ⟨rfl, ?_, ?_, ?_⟩
  · simpa [addTransaction, getTransaction] using hget
  · simp [removeTransaction, getTransaction, addTransaction, hget]
  · simp [removeTransaction, getTransaction, addTransaction, hget,
      collGet_collRemove_self]

/-- Counterexample to claim C2: an event named foo whose status flag is
strictly false is re-fired under its own name; no exception event fires. -/
theorem exception_missed_for_named_event :
    evFoo.getStatus = some false ∧
    Fired.fire "exception" evFoo none ∉ onProviderData provEx (.single evFoo) := by
  decide

/-- Claim C2 (amended): for an event whose status flag is strictly false the
Manager re-emits the exception event exactly when the event's name is falsy
or one of the reserved names event and exception; an event with any other
name is re-emitted under that name instead, with no exception fire. -/
theorem exception_fired_iff (p : Provider) (e : DirectEvent) :
    Fired.fire "exception" e none ∈ onProviderData p (.single e) ↔
      ((e.getName = "" ∨ e.getName = "event" ∨ e.getName = "exception") ∧
        e.getStatus = some false) := by
  have hred : onProviderData p (.single e) = processEvent p e := rfl
  rw [hred]
  rcases e with ⟨n, st⟩
  unfold processEvent
  by_cases h4 : st = some false
  · subst h4
    by_cases h1 : n = ""
    · subst h1
      simp [DirectEvent.getName, DirectEvent.getStatus]
    · by_cases h2 : n = "event"
      · subst h2
        simp [DirectEvent.getName, DirectEvent.getStatus]
      · by_cases h3 : n = "exception"
        · subst h3
          simp [DirectEvent.getName, DirectEvent.getStatus]
        · simp [DirectEvent.getName, DirectEvent.getStatus, h1, h2, h3, Ne.symm h3]
  · by_cases h1 : n = ""
    · subst h1
      simp [DirectEvent.getName, DirectEvent.getStatus, h4]
    · by_cases h2 : n = "event"
      · subst h2
        simp [DirectEvent.getName, DirectEvent.getStatus, h4]
      · by_cases h3 : n = "exception"
        · subst h3
          simp [DirectEvent.getName, DirectEvent.getStatus, h4]
        · simp [DirectEvent.getName, DirectEvent.getStatus, h1, h2, h3, Ne.symm h3, h4]

/-- Claim C4: the event named event is fired with the event and the provider
unconditionally (as the final fire) for a non-array argument, and for an
array argument this holds for each element, in order. -/
theorem event_always_fired (p : Provider) (e : DirectEvent) (es : List DirectEvent) :
    (∃ front, onProviderData p (.single e) = front ++ [Fired.fire "event" e (some p)]) ∧
    (es.map fun x => Fired.fire "event" x (some p)).Sublist
      (onProviderData p (.arr (es.map EventArg.single))) := by
  constructor
  · exact ⟨_, rfl⟩
  · induction es with
    | nil => exact List.Sublist.refl _
    | cons x xs ih =>
      have hx : onProviderData p (.arr ((x :: xs).map EventArg.single))
          = processEvent p x ++ onProviderData p (.arr (xs.map EventArg.single)) := rfl
      rw [List.map_cons, hx]
      show (Fired.fire "event" x (some p) :: xs.map fun y => Fired.fire "event" y (some p)).Sublist
        (processEvent p x ++ onProviderData p (.arr (xs.map EventArg.single)))
      unfold processEvent
      rw [List.append_assoc, List.singleton_append]
      exact List.Sublist.trans (List.Sublist.cons₂ _ ih) (List.sublist_append_right _ _)

/-- Claim C5: in every Manager state reachable from the constructor through
the registry operations, the providers and transactions registries are keyed
by the item id and no two distinct entries of one registry share a key. -/
theorem reachable_unique_keys (s : ManagerState) (h : Reachable s) :
    uniqueKeys Provider.getId s.providers ∧ uniqueKeys Transaction.getId s.transactions := by
  induction h with
  | init => exact ⟨List.Pairwise.nil, List.Pairwise.nil⟩
  | addP mk s a hs ih =>
    refine ⟨?_, ?_⟩
    · show uniqueKeys Provider.getId (collAdd Provider.getId s.providers (instantiateWith mk a))
      exact uniqueKeys_collAdd _ _ ih.1
    · exact ih.2
  | remP s a hs ih =>
    obtain ⟨ht, hp⟩ := removeProvider_state s a
    constructor
    · rcases hp with hp | ⟨p, hp⟩
      · rw [hp]; exact ih.1
      · rw [hp]; exact uniqueKeys_collRemove _ _ ih.1
    · rw [ht]; exact ih.2
  | addT s t hs ih =>
    exact ⟨ih.1, uniqueKeys_collAdd _ _ ih.2⟩
  | remT s a hs ih =>
    obtain ⟨hp, ht⟩ := removeTransaction_state s a
    constructor
    · rw [hp]; exact ih.1
    · rcases ht with ht | ⟨t, ht⟩
      · rw [ht]; exact ih.2
      · rw [ht]; exact uniqueKeys_collRemove _ _ ih.2

/-- Witness for claim C5 at a concrete reachable state. -/
theorem reachable_unique_keys_witness :
    uniqueKeys Provider.getId sEx.providers ∧ uniqueKeys Transaction.getId sEx.transactions :=
  reachable_unique_keys sEx
    (Reachable.addP mkEx ManagerState.init (ProviderArg.inst ⟨"p1", false⟩) Reachable.init)

theorem addProviderLoop_eq_foldl (mk : PConfig → Provider) (args : List ProviderArg) :
    ∀ (s : ManagerState) (acc : List Effect),
      addProviderLoop mk s acc args =
        args.foldl
          (fun b a => ((addProvider1 mk b.1 a).1, b.2 ++ (addProvider1 mk b.1 a).2.1))
          (s, acc) := by
  induction args with
  | nil => intro s acc; rfl
  | cons a rest ih =>
    intro s acc
    simp only [addProviderLoop, List.foldl_cons]
    exact ih _ _

/-- Claim C8: a call of addProvider with more than one argument runs one
single-argument call per argument, in order, threading the state and
accumulating the effects, and itself returns undefined rather than a
provider. -/
theorem addProvider_multi_sequential (mk : PConfig → Provider) (s : ManagerState)
    (args : List ProviderArg) (h : 1 < args.length) :
    ∃ fin : ManagerState × List Effect,
      fin = args.foldl
        (fun b a =>
          match addProvider mk b.1 [a] with
          | some r => (r.1, b.2 ++ r.2.1)
          | none => b) (s, []) ∧
      addProvider mk s args = some (fin.1, fin.2, none) := by
  have hstep : (fun (b : ManagerState × List Effect) (a : ProviderArg) =>
      match addProvider mk b.1 [a] with
      | some r => (r.1, b.2 ++ r.2.1)
      | none => b)
      = fun b a => ((addProvider1 mk b.1 a).1, b.2 ++ (addProvider1 mk b.1 a).2.1) := by
    funext b a
    rfl
  refine ⟨_, rfl, ?_⟩
  rw [hstep]
  simp only [addProvider, if_pos h]
  rw [addProviderLoop_eq_foldl]

/-- Witness for claim C8 at a concrete two-argument call. -/
theorem addProvider_multi_sequential_witness :
    1 < ([ProviderArg.inst ⟨"a", true⟩, ProviderArg.inst ⟨"b", false⟩]
          : List ProviderArg).length ∧
    ∃ fin : ManagerState × List Effect,
      fin = ([ProviderArg.inst ⟨"a", true⟩, ProviderArg.inst ⟨"b", false⟩]
              : List ProviderArg).foldl
        (fun b a =>
          match addProvider mkEx b.1 [a] with
          | some r => (r.1, b.2 ++ r.2.1)
          | none => b) (ManagerState.init, []) ∧
      addProvider mkEx ManagerState.init
          [ProviderArg.inst ⟨"a", true⟩, ProviderArg.inst ⟨"b", false⟩]
        = some (fin.1, fin.2, none) :=
  ⟨by decide, addProvider_multi_sequential mkEx ManagerState.init
    [ProviderArg.inst ⟨"a", true⟩, ProviderArg.inst ⟨"b", false⟩] (by decide)⟩

theorem walkRun_isSome (parts : List String) :
    ∀ cur : JSValue, (walkRun cur parts).isSome := by
  induction parts with
  | nil => intro cur; rfl
  | cons p rest ih =>
    intro cur
    unfold walkRun
    by_cases ht : truthy cur = true
    · rw [if_pos ht]
      have hg : ∃ c, getMember cur p = some c := by
        cases cur with
        | undefV => simp [truthy] at ht
        | jsNull => simp [truthy] at ht
        | boolV b => exact ⟨.undefV, rfl⟩
        | numV n => exact ⟨.undefV, rfl⟩
        | strV s => exact ⟨.undefV, rfl⟩
        | fnV f => exact ⟨.undefV, rfl⟩
        | objV fields => exact ⟨_, rfl⟩
      obtain ⟨c, hc⟩ := hg
      rw [hc]
      exact ih c
    · rw [if_neg ht]
      rfl

/-- Claim C9: parseMethod is total and never throws: for a dotted-path
string it walks the path from the window object and returns the value found
when that value is a function and null otherwise; a function argument is
returned unchanged. -/
theorem parseMethod_total (w : JSValue) (a : FnArg) :
    ∃ r, parseMethod w a = some r ∧
      (∀ f, a = FnArg.fnA f → r = some (JSValue.fnV f)) ∧
      (∀ v, r = some v → isFunction v = true) := by
  cases a with
  | fnA f =>
    refine ⟨some (.fnV f), rfl, ?_, ?_⟩
    · intro g hg
      cases hg
      rfl
    · intro v hv
      cases hv
      rfl
  | strA str =>
    have h := walkRun_isSome (str.splitOn ".") w
    obtain ⟨v, hv⟩ := Option.isSome_iff_exists.mp h
    refine ⟨if isFunction v then some v else none, ?_, ?_, ?_⟩
    · simp [parseMethod, hv]
    · intro f hf
      exact FnArg.noConfusion hf
    · intro u hu
      by_cases hf : isFunction v = true
      · rw [if_pos hf] at hu
        cases hu
        exact hf
      · rw [if_neg hf] at hu
        exact Option.noConfusion hu

end ExtDirect

namespace ExtShim

/-- Claim C6: the EventManager shim is a pure forward with identical
arguments onto the toolkit's own event system: addListener behaves exactly
as element on, removeListener exactly as element un, and onWindowResize
exactly as registering the resize handler on the viewport; the shim keeps no
state or behaviour of its own (outside debug logging). -/
theorem shim_pure_forward (el vp : El) (ev f : String) (sc o : Option String) :
    addListener el ev f sc o = El.on el ev f sc o ∧
    (addListener el ev f sc o).listeners = el.listeners ++ [⟨ev, f, sc, o⟩] ∧
    removeListener el ev f sc = El.un el ev f sc ∧
    onWindowResize vp f sc o = El.on vp "resize" f sc o :=
  ⟨rfl, rfl, rfl, rfl⟩

end ExtShim
